import Mathlib

/-!
Shallow embedding of `src/squashelf.c`: the segment selection, ordering,
layout and emission pipeline of the `squashelf` tool, together with proofs
of the specification claims about it.

Modelling conventions:
* ELF `u64` fields are `Nat`; the one place the C code can wrap a 64-bit
  computation (`segmentEnd`, line 231) takes an explicit `% 2 ^ 64`.
* The libc `qsort` call (line 260) is modelled by `List.insertionSort` over
  the order induced by the source comparator `comparePhdr`; `qsort` leaves
  the relative order of comparator-equal elements unspecified, so only
  facts independent of tie order (sortedness, permutation) are derived
  from this model.
* Fallible steps return `Except`; the observable file-system steps of
  `main` are recorded as an `Effect` trace so that "fails before the
  output file is created" is statable.
-/

namespace Squashelf

/-- 2 ^ 64, the modulus of the C `uint64_t` arithmetic. -/
def U64 : Nat := 2 ^ 64

/-- ELF program-header type tag for loadable segments (`PT_LOAD`). -/
def PT_LOAD : Nat := 1

/-- ELF reserved undefined section index (`SHN_UNDEF`). -/
def SHN_UNDEF : Nat := 0

/-- One program-header-table entry, the fields of a `GElf_Phdr` used by
`src/squashelf.c` (all 64-bit unsigned in the generic libelf view). -/
structure GElf_Phdr where
  p_type : Nat
  p_flags : Nat
  p_offset : Nat
  p_vaddr : Nat
  p_paddr : Nat
  p_filesz : Nat
  p_memsz : Nat
  p_align : Nat
deriving Repr, DecidableEq

/-- The option state of `main` after argument parsing
(`src/squashelf.c` lines 43-47): `--nosht`, `--range min-max` (with its two
bounds) and `--zero-size-segments`.  `verbose` only drives logging and is
not modelled. -/
structure Config where
  noSht : Bool
  hasRange : Bool
  minLma : Nat
  maxLma : Nat
  allowZeroSizeSeg : Bool
deriving Repr, DecidableEq

/-- `uint64_t segmentEnd = ph.p_paddr + ph.p_memsz - 1;`
(`src/squashelf.c` line 231): unsigned 64-bit arithmetic, so the result is
taken modulo `2 ^ 64`; for `p_paddr = p_memsz = 0` it wraps to
`2 ^ 64 - 1`. -/
def segmentEnd (ph : GElf_Phdr) : Nat :=
  (ph.p_paddr + ph.p_memsz + (U64 - 1)) % U64

/-- The per-segment acceptance test of the extraction loop
(`src/squashelf.c` lines 215-249), with the source's short-circuit order:
non-`PT_LOAD` segments are skipped (line 220), then zero `p_filesz`
segments are skipped unless `--zero-size-segments` was given (line 222),
then segments not fully contained in an active `--range` filter are
skipped (lines 230-239); everything else is kept (line 244). -/
def acceptSegment (cfg : Config) (ph : GElf_Phdr) : Bool :=
  if ph.p_type ≠ PT_LOAD then false
  else if ph.p_filesz = 0 ∧ cfg.allowZeroSizeSeg = false then false
  else if cfg.hasRange = true ∧
      (ph.p_paddr < cfg.minLma ∨ cfg.maxLma < segmentEnd ph) then false
  else true

/-- The accepted set: the `phdrs[0 .. loadCount)` array built by the
extraction loop (`src/squashelf.c` lines 211-249), in input order. -/
def selectSegments (cfg : Config) (l : List GElf_Phdr) : List GElf_Phdr :=
  l.filter (acceptSegment cfg)

/-- The `qsort` comparator (`src/squashelf.c` lines 28-39): ascending on
`p_paddr`, returning 0 on equal addresses. -/
def comparePhdr (a b : GElf_Phdr) : Int :=
  if a.p_paddr < b.p_paddr then -1
  else if a.p_paddr > b.p_paddr then 1
  else 0

/-- The non-strict order induced by `comparePhdr`: "does not compare
after". -/
def phdrLe (a b : GElf_Phdr) : Prop := comparePhdr a b ≤ 0

instance : DecidableRel phdrLe := fun a b =>
  inferInstanceAs (Decidable (comparePhdr a b ≤ 0))

theorem phdrLe_iff {a b : GElf_Phdr} : phdrLe a b ↔ a.p_paddr ≤ b.p_paddr := by
  unfold phdrLe comparePhdr
  split
  · simp; omega
  · split <;> simp <;> omega

instance : IsTotal GElf_Phdr phdrLe :=
  ⟨fun a b => by
    rw [phdrLe_iff, phdrLe_iff]
    exact Nat.le_total _ _⟩

instance : IsTrans GElf_Phdr phdrLe :=
  ⟨fun a b c hab hbc => by
    rw [phdrLe_iff] at *
    exact Nat.le_trans hab hbc⟩

/-- Model of `qsort(phdrs, loadCount, sizeof(GElf_Phdr), comparePhdr)`
(`src/squashelf.c` line 260).  `qsort` guarantees only that the result is
a permutation of the input ordered consistently with the comparator; tie
order is unspecified, and this model fixes one admissible outcome. -/
def sortPhdrs (l : List GElf_Phdr) : List GElf_Phdr :=
  List.insertionSort phdrLe l

/-- The program-header table written to the output file
(`src/squashelf.c` lines 326-330): the sorted accepted segments, each
entry written verbatim by `gelf_update_phdr` — in particular with its
original `p_offset` field unchanged. -/
def outputPhdrs (cfg : Config) (l : List GElf_Phdr) : List GElf_Phdr :=
  sortPhdrs (selectSegments cfg l)

theorem mem_sortPhdrs {a : GElf_Phdr} {l : List GElf_Phdr} :
    a ∈ sortPhdrs l ↔ a ∈ l :=
  List.mem_insertionSort phdrLe

theorem length_sortPhdrs (l : List GElf_Phdr) :
    (sortPhdrs l).length = l.length :=
  List.length_insertionSort phdrLe l

theorem sorted_sortPhdrs (l : List GElf_Phdr) :
    List.Sorted phdrLe (sortPhdrs l) :=
  List.sorted_insertionSort phdrLe l

theorem acceptSegment_iff (cfg : Config) (ph : GElf_Phdr) :
    acceptSegment cfg ph = true ↔
      ph.p_type = PT_LOAD ∧
      (ph.p_filesz ≠ 0 ∨ cfg.allowZeroSizeSeg = true) ∧
      (cfg.hasRange = false ∨
        (cfg.minLma ≤ ph.p_paddr ∧ segmentEnd ph ≤ cfg.maxLma)) := by
  unfold acceptSegment
  split
  · simp_all
  · split
    · rename_i h1 h2
      simp only [Bool.false_eq_true, false_iff]
      intro ⟨_, hz, _⟩
      rcases hz with hz | hz
      · exact hz h2.1
      · rw [h2.2] at hz; cases hz
    · split
      · rename_i h1 h2 h3
        simp only [Bool.false_eq_true, false_iff]
        intro ⟨_, _, hr⟩
        rcases hr with hr | hr
        · rw [h3.1] at hr; cases hr
        · rcases h3.2 with h | h <;> omega
      · rename_i h1 h2 h3
        simp only [true_iff]
        push_neg at h1 h2 h3
        refine ⟨h1, ?_, ?_⟩
        · by_cases hz : ph.p_filesz = 0
          · exact Or.inr (by simpa using h2 hz)
          · exact Or.inl hz
        · by_cases hr : cfg.hasRange = true
          · have := h3 hr
            exact Or.inr ⟨by omega, by omega⟩
          · exact Or.inl (by simpa using hr)

theorem mem_selectSegments {cfg : Config} {l : List GElf_Phdr}
    {ph : GElf_Phdr} :
    ph ∈ selectSegments cfg l ↔ ph ∈ l ∧ acceptSegment cfg ph = true := by
  unfold selectSegments
  exact List.mem_filter

/-- The input ELF as the pipeline sees it: its enumerated program headers
and the total number of bytes the input file holds (which bounds what
`pread` can return). -/
structure InputElf where
  phdrs : List GElf_Phdr
  fileSize : Nat
deriving Repr, DecidableEq

/-- A section created on the output ELF descriptor: either one of the
data-carrying sections made per payload (`elf_newscn` at
`src/squashelf.c` line 374, sized and aligned at lines 388-390), or the
final empty/null section (`elf_newscn` at line 423). -/
structure ElfScn where
  size : Nat
  align : Nat
  isNull : Bool
deriving Repr, DecidableEq

/-- The fatal outcomes of the modelled pipeline.  `usageError` is the
`EXIT_FAILURE` returns of argument parsing (`src/squashelf.c` lines
74-78 and 105-109); `noLoadableSegments` is the line 251-257 failure;
`shortRead` is the line 363-371 abort. -/
inductive SqError
| usageError
| noLoadableSegments
| shortRead
deriving Repr, DecidableEq

/-- Observable file-system actions of `main`, in the order the source
performs them: `open(inputFile)` (line 162), `open(outputFile)`
(line 275), the first `elf_update` flushing header and PHT (line 333),
and the final `elf_update` (line 435). -/
inductive Effect
| openInput
| openOutput
| writeHeaderPht
| writeFinal
deriving Repr, DecidableEq

/-- `pread(inputFd, buf, count, offset)` on a file of `fileSize` bytes
returns the bytes actually available, `min count (fileSize - offset)`
(zero at or past end of file); errors are not modelled. -/
def preadLen (fileSize offset count : Nat) : Nat :=
  min count (fileSize - offset)

/-- The payload loop (`src/squashelf.c` lines 340-403) over the sorted
segments: zero-`p_filesz` segments are skipped (line 344); otherwise the
payload is read with `pread` (line 358) and a read shorter than
`p_filesz` aborts the run (lines 363-371); on success a data descriptor
of exactly `p_filesz` bytes is attached (lines 388-392).  Returns each
payload-bearing segment paired with the bytes attached for it. -/
def associateData (fs : Nat) :
    List GElf_Phdr → Except SqError (List (GElf_Phdr × Nat))
  | [] => Except.ok []
  | ph :: rest =>
    if ph.p_filesz = 0 then associateData fs rest
    else if preadLen fs ph.p_offset ph.p_filesz ≠ ph.p_filesz then
      Except.error SqError.shortRead
    else
      match associateData fs rest with
      | Except.error e => Except.error e
      | Except.ok ds => Except.ok ((ph, ph.p_filesz) :: ds)

/-- The null section appended in the default (no `--nosht`) mode
(`src/squashelf.c` line 423): `elf_newscn` leaves it `SHT_NULL`
initialised, with no content. -/
def nullScn : ElfScn := { size := 0, align := 0, isNull := true }

/-- The data section attached for one payload-bearing segment
(`src/squashelf.c` lines 388-390): `d_size = p_filesz`,
`d_align = p_align`. -/
def dataScn (pr : GElf_Phdr × Nat) : ElfScn :=
  { size := pr.2, align := pr.1.p_align, isNull := false }

/-- The output ELF as finalized: header fields and the tables the core
put into it.  `phdrTable` is the program-header table content written by
`gelf_update_phdr` (lines 326-330); `sections` are the sections created
on the descriptor (libelf's implicit zeroth null section is owned by the
accessor and not counted here). -/
structure OutputElf where
  phnum : Nat
  shnum : Nat
  shoff : Nat
  shstrndx : Nat
  phdrTable : List GElf_Phdr
  sections : List ElfScn
deriving Repr, DecidableEq

/-- Final assembly of the output descriptor (`src/squashelf.c` lines
297-335 and 406-431): the header gets `e_phnum = loadCount` and cleared
section fields (lines 306-309); with `--nosht` the section fields are
cleared again (lines 412-420) and no extra section is added; otherwise
one null section is appended after the data sections (line 423) and,
per the source comments at lines 428-430, `elf_update` finalizes
`e_shnum` to the number of sections on the descriptor. -/
def buildOutput (cfg : Config) (sorted : List GElf_Phdr)
    (ds : List (GElf_Phdr × Nat)) : OutputElf :=
  let dataSecs := ds.map dataScn
  if cfg.noSht then
    { phnum := sorted.length, shnum := 0, shoff := 0, shstrndx := SHN_UNDEF,
      phdrTable := sorted, sections := dataSecs }
  else
    let secs := dataSecs ++ [nullScn]
    { phnum := sorted.length, shnum := secs.length, shoff := 0,
      shstrndx := SHN_UNDEF, phdrTable := sorted, sections := secs }

/-- The pipeline of `main` after argument parsing (`src/squashelf.c`
lines 154-443): open and enumerate the input, select (lines 215-249),
fail if nothing was selected (lines 251-257) before the output file is
created (line 275), sort (line 260), write header and PHT (lines
297-335), associate payloads (lines 340-403), finalize the section
policy (lines 406-431) and commit (line 435).  Returns the outcome and
the trace of file-system effects; the process exit status each outcome
yields is `exitStatus` below — not every `Except.error` outcome exits
non-zero. -/
def runSquashelf (cfg : Config) (inp : InputElf) :
    Except SqError OutputElf × List Effect :=
  if (selectSegments cfg inp.phdrs).length = 0 then
    (Except.error SqError.noLoadableSegments, [Effect.openInput])
  else
    match associateData inp.fileSize
        (sortPhdrs (selectSegments cfg inp.phdrs)) with
    | Except.error e =>
      (Except.error e,
        [Effect.openInput, Effect.openOutput, Effect.writeHeaderPht])
    | Except.ok ds =>
      (Except.ok
          (buildOutput cfg (sortPhdrs (selectSegments cfg inp.phdrs)) ds),
        [Effect.openInput, Effect.openOutput, Effect.writeHeaderPht,
          Effect.writeFinal])

/-- The process exit status for each outcome.  Usage errors
(`src/squashelf.c` lines 77, 108, 123, 137) and the empty-selection
failure (line 256) `return EXIT_FAILURE` explicitly, so those paths
exit 1.  The short-read abort instead jumps to the `cleanup_error`
label (line 442), where line 443 computes
`(errno != 0 || elf_errno() != 0) ? EXIT_FAILURE : EXIT_SUCCESS`; on
that path every preceding call succeeded and a `pread` returning fewer
bytes than requested is not an error and leaves `errno` untouched, so
both are 0 and the process exits 0 (`EXIT_SUCCESS`), exactly as a fully
successful run does. -/
def exitStatus : Except SqError OutputElf → Nat
  | Except.error SqError.usageError => 1
  | Except.error SqError.noLoadableSegments => 1
  | Except.error SqError.shortRead => 0
  | Except.ok _ => 0

/-- `strchr(optarg, '-')` followed by the split at that dash
(`src/squashelf.c` lines 73-83): `none` when the argument has no dash,
otherwise the text before the first dash and the text after it. -/
def splitAtDash : List Char → Option (List Char × List Char)
  | [] => none
  | c :: rest =>
    if c = '-' then some ([], rest)
    else
      match splitAtDash rest with
      | none => none
      | some (a, b) => some (c :: a, b)

/-- `isspace` for the characters `strtoull` skips. -/
def isWs (c : Char) : Bool :=
  c = ' ' ∨ c = Char.ofNat 9 ∨ c = Char.ofNat 10 ∨ c = Char.ofNat 11 ∨
    c = Char.ofNat 12 ∨ c = Char.ofNat 13

/-- Numeric value of one character as a digit, if it is one. -/
def digitVal (c : Char) : Option Nat :=
  if '0' ≤ c ∧ c ≤ '9' then some (c.toNat - '0'.toNat)
  else if 'a' ≤ c ∧ c ≤ 'f' then some (c.toNat - 'a'.toNat + 10)
  else if 'A' ≤ c ∧ c ≤ 'F' then some (c.toNat - 'A'.toNat + 10)
  else none

/-- Digit value restricted to a base. -/
def digitInBase (base : Nat) (c : Char) : Option Nat :=
  match digitVal c with
  | some v => if v < base then some v else none
  | none => none

/-- Greedy digit scan of `strtoull`: accumulate digits of the base until
the first non-digit, returning the exact accumulated value. -/
def scanDigits (base : Nat) : List Char → Nat → Nat
  | [], acc => acc
  | c :: rest, acc =>
    match digitInBase base c with
    | some v => scanDigits base rest (acc * base + v)
    | none => acc

/-- Model of C `strtoull(s, NULL, base)` for bases 10 and 16: skip
leading whitespace, an optional sign (a leading minus negates the value
in the return type, modulo `2 ^ 64`), for base 16 an optional `0x`/`0X`
prefix when a hex digit follows, then greedy digits; no digits yields 0
and overflow yields `ULLONG_MAX`. -/
def strtoull (s : List Char) (base : Nat) : Nat :=
  let s1 := s.dropWhile isWs
  let sgn : Bool × List Char :=
    match s1 with
    | c :: r => if c = '-' then (true, r) else if c = '+' then (false, r) else (false, s1)
    | [] => (false, s1)
  let s3 : List Char :=
    if base = 16 then
      match sgn.2 with
      | c0 :: c1 :: r =>
        if c0 = '0' ∧ (c1 = 'x' ∨ c1 = 'X') ∧
            (match r with
             | c2 :: _ => (digitInBase 16 c2).isSome
             | [] => false) = true then r
        else sgn.2
      | _ => sgn.2
    else sgn.2
  let v := min (scanDigits base s3 0) (U64 - 1)
  if sgn.1 then (U64 - v) % U64 else v

/-- `strncmp(s, "0x", 2) == 0 || strncmp(s, "0X", 2) == 0`
(`src/squashelf.c` lines 86-87 and 94-95). -/
def startsWith0x (s : List Char) : Bool :=
  match s with
  | c0 :: c1 :: _ => c0 = '0' ∧ (c1 = 'x' ∨ c1 = 'X')
  | _ => false

/-- One bound of the range argument: parsed in base 16 when the text
starts with `0x`/`0X`, else base 10 (`src/squashelf.c` lines 86-100). -/
def parseBound (s : List Char) : Nat :=
  if startsWith0x s then strtoull s 16 else strtoull s 10

/-- The `-r`/`--range` argument handling (`src/squashelf.c` lines
70-110): missing dash is a usage failure; otherwise both bounds are
converted and `min >= max` is a usage failure. -/
def parseRangeArg (s : List Char) : Except Unit (Nat × Nat) :=
  match splitAtDash s with
  | none => Except.error ()
  | some (minS, maxS) =>
    let mn := parseBound minS
    let mx := parseBound maxS
    if mn ≥ mx then Except.error () else Except.ok (mn, mx)

/-- `main` including the option-parsing phase for the range option: the
range argument (when present) is parsed inside the `getopt_long` loop
(`src/squashelf.c` lines 64-128), before any file is opened (line 162
onwards); a parse failure returns `EXIT_FAILURE` with an empty effect
trace.  `n` and `z` are the `--nosht` and `--zero-size-segments`
flags. -/
def runWithRangeArg (rangeArg : Option (List Char)) (n z : Bool)
    (inp : InputElf) : Except SqError OutputElf × List Effect :=
  match rangeArg with
  | none =>
    runSquashelf
      { noSht := n, hasRange := false, minLma := 0, maxLma := 0,
        allowZeroSizeSeg := z } inp
  | some s =>
    match parseRangeArg s with
    | Except.error _ => (Except.error SqError.usageError, [])
    | Except.ok mm =>
      runSquashelf
        { noSht := n, hasRange := true, minLma := mm.1, maxLma := mm.2,
          allowZeroSizeSeg := z } inp

/-! Concrete configurations and descriptors used by witnesses and
counterexamples. -/

/-- Default configuration: no flag given. -/
def cfgPlain : Config :=
  { noSht := false, hasRange := false, minLma := 0, maxLma := 0,
    allowZeroSizeSeg := false }

/-- A loadable segment at LMA `0x1000` whose payload sits at source file
offset `0x400`. -/
def segLow : GElf_Phdr :=
  { p_type := 1, p_flags := 0, p_offset := 0x400, p_vaddr := 0x1000,
    p_paddr := 0x1000, p_filesz := 0x100, p_memsz := 0x100, p_align := 1 }

/-- A loadable segment at LMA `0x2000` whose payload sits at source file
offset `0x200`, before `segLow`'s payload. -/
def segHigh : GElf_Phdr :=
  { p_type := 1, p_flags := 0, p_offset := 0x200, p_vaddr := 0x2000,
    p_paddr := 0x2000, p_filesz := 0x100, p_memsz := 0x100, p_align := 1 }

/-- A one-segment input file large enough for every read. -/
def inpOne : InputElf := { phdrs := [segLow], fileSize := 0x1000 }

/-- The output `runSquashelf cfgPlain inpOne` produces. -/
def outOne : OutputElf :=
  { phnum := 1, shnum := 2, shoff := 0, shstrndx := 0,
    phdrTable := [segLow],
    sections := [{ size := 0x100, align := 1, isNull := false }, nullScn] }

/-- The effect trace of a complete successful run. -/
def trFull : List Effect :=
  [Effect.openInput, Effect.openOutput, Effect.writeHeaderPht,
    Effect.writeFinal]

/-- Successful runs come from a successful payload pass over the sorted
accepted segments, and the output is assembled by `buildOutput` from
them. -/
theorem runSquashelf_ok {cfg : Config} {inp : InputElf} {out : OutputElf}
    {tr : List Effect}
    (h : runSquashelf cfg inp = (Except.ok out, tr)) :
    ∃ ds,
      associateData inp.fileSize (outputPhdrs cfg inp.phdrs) =
        Except.ok ds ∧
      out = buildOutput cfg (outputPhdrs cfg inp.phdrs) ds := by
  unfold runSquashelf at h
  split at h
  · simp at h
  · split at h
    · simp at h
    · rename_i ds hds
      simp only [Prod.mk.injEq, Except.ok.injEq] at h
      exact ⟨ds, hds, h.1.symm⟩

/-- Claim C1: a source segment descriptor is in the accepted set iff it
is `PT_LOAD`, its `p_filesz` is nonzero or `--zero-size-segments` was
given, and, when a range filter is active, it is fully contained in it
(`p_paddr >= min` and the wrapped `p_paddr + p_memsz - 1 <= max`). -/
theorem c1_selection (cfg : Config) (l : List GElf_Phdr) (ph : GElf_Phdr)
    (h : ph ∈ l) :
    ph ∈ selectSegments cfg l ↔
      ph.p_type = PT_LOAD ∧
      (ph.p_filesz ≠ 0 ∨ cfg.allowZeroSizeSeg = true) ∧
      (cfg.hasRange = false ∨
        (cfg.minLma ≤ ph.p_paddr ∧ segmentEnd ph ≤ cfg.maxLma)) := by
  rw [mem_selectSegments, acceptSegment_iff]
  exact and_iff_right h

theorem c1_selection_witness :
    segLow ∈ selectSegments cfgPlain [segLow] ↔
      segLow.p_type = PT_LOAD ∧
      (segLow.p_filesz ≠ 0 ∨ cfgPlain.allowZeroSizeSeg = true) ∧
      (cfgPlain.hasRange = false ∨
        (cfgPlain.minLma ≤ segLow.p_paddr ∧
          segmentEnd segLow ≤ cfgPlain.maxLma)) :=
  c1_selection cfgPlain [segLow] segLow (by decide)

/-- Claim C2 (code bug): the offsets recorded in the output
program-header table are not replaced by packed, aligned layout offsets;
`gelf_update_phdr` (line 327) writes each sorted descriptor with its
original source `p_offset`, and no code updates it (the comment at lines
401-402 expects `elf_update` to recompute segment offsets, but libelf
lays out only sections).  Concretely, the two consecutive output entries
keep offsets `0x400` and `0x200`, violating
`outputOffset[i] + outputSize[i] <= outputOffset[i+1]`. -/
theorem c2_recorded_offsets_stale :
    outputPhdrs cfgPlain [segHigh, segLow] = [segLow, segHigh] ∧
    segLow.p_offset = 0x400 ∧ segHigh.p_offset = 0x200 ∧
    ¬ (segLow.p_offset + segLow.p_filesz ≤ segHigh.p_offset) := by
  refine ⟨by decide, rfl, rfl, by decide⟩

/-- Claim C3: a successful run's output program-header table has exactly
as many entries as the accepted set, every entry is `PT_LOAD`, and the
entries are in non-decreasing `p_paddr` order. -/
theorem c3_output_pht (cfg : Config) (inp : InputElf) (out : OutputElf)
    (tr : List Effect) (h : runSquashelf cfg inp = (Except.ok out, tr)) :
    out.phnum = (selectSegments cfg inp.phdrs).length ∧
    out.phdrTable.length = (selectSegments cfg inp.phdrs).length ∧
    (∀ ph ∈ out.phdrTable, ph.p_type = PT_LOAD) ∧
    List.Sorted (fun a b => a.p_paddr ≤ b.p_paddr) out.phdrTable := by
  obtain ⟨ds, hds, rfl⟩ := runSquashelf_ok h
  have hpt :
      (buildOutput cfg (outputPhdrs cfg inp.phdrs) ds).phdrTable =
        outputPhdrs cfg inp.phdrs := by
    unfold buildOutput
    split <;> rfl
  have hpn :
      (buildOutput cfg (outputPhdrs cfg inp.phdrs) ds).phnum =
        (outputPhdrs cfg inp.phdrs).length := by
    unfold buildOutput
    split <;> rfl
  rw [hpt, hpn]
  refine ⟨?_, ?_, ?_, ?_⟩
  · exact length_sortPhdrs _
  · exact length_sortPhdrs _
  · intro ph hm
    have := (mem_selectSegments.mp (mem_sortPhdrs.mp hm)).2
    exact ((acceptSegment_iff cfg ph).mp this).1
  · exact (sorted_sortPhdrs _).imp fun hab => phdrLe_iff.mp hab

set_option maxRecDepth 100000 in
theorem c3_output_pht_witness :
    outOne.phnum = (selectSegments cfgPlain inpOne.phdrs).length ∧
    outOne.phdrTable.length = (selectSegments cfgPlain inpOne.phdrs).length ∧
    (∀ ph ∈ outOne.phdrTable, ph.p_type = PT_LOAD) ∧
    List.Sorted (fun a b => a.p_paddr ≤ b.p_paddr) outOne.phdrTable :=
  c3_output_pht cfgPlain inpOne outOne trFull rfl

/-- A non-loadable segment (`PT_NOTE`). -/
def segNote : GElf_Phdr :=
  { p_type := 4, p_flags := 0, p_offset := 0x40, p_vaddr := 0,
    p_paddr := 0, p_filesz := 0x20, p_memsz := 0x20, p_align := 4 }

/-- An input whose only segment is not loadable. -/
def inpNoLoad : InputElf := { phdrs := [segNote], fileSize := 0x1000 }

/-- Claim C5: when the accepted set is empty the run fails with the
no-loadable-segments error (a non-zero exit), and neither the output
file creation nor any output write appears in the effect trace. -/
theorem c5_empty_selection_fatal (cfg : Config) (inp : InputElf)
    (h : selectSegments cfg inp.phdrs = []) :
    (runSquashelf cfg inp).1 = Except.error SqError.noLoadableSegments ∧
    Effect.openOutput ∉ (runSquashelf cfg inp).2 ∧
    Effect.writeHeaderPht ∉ (runSquashelf cfg inp).2 ∧
    Effect.writeFinal ∉ (runSquashelf cfg inp).2 := by
  have hrun : runSquashelf cfg inp =
      (Except.error SqError.noLoadableSegments, [Effect.openInput]) := by
    unfold runSquashelf
    rw [h]
    rfl
  rw [hrun]
  refine ⟨rfl, ?_, ?_, ?_⟩ <;> simp

theorem c5_empty_selection_fatal_witness :
    (runSquashelf cfgPlain inpNoLoad).1 =
      Except.error SqError.noLoadableSegments ∧
    Effect.openOutput ∉ (runSquashelf cfgPlain inpNoLoad).2 ∧
    Effect.writeHeaderPht ∉ (runSquashelf cfgPlain inpNoLoad).2 ∧
    Effect.writeFinal ∉ (runSquashelf cfgPlain inpNoLoad).2 :=
  c5_empty_selection_fatal cfgPlain inpNoLoad (by decide)

/-- Every payload pair returned by the payload loop comes from a segment
with nonzero `p_filesz` (zero-size segments are skipped at line 344). -/
theorem associateData_filesz_ne {fs : Nat} :
    ∀ {l : List GElf_Phdr} {ds : List (GElf_Phdr × Nat)},
      associateData fs l = Except.ok ds →
      ∀ pr ∈ ds, pr.1.p_filesz ≠ 0 := by
  intro l
  induction l with
  | nil =>
    intro ds h pr hpr
    unfold associateData at h
    simp only [Except.ok.injEq] at h
    subst h
    cases hpr
  | cons q rest ih =>
    intro ds h pr hpr
    unfold associateData at h
    split at h
    · exact ih h pr hpr
    · rename_i hq0
      split at h
      · cases h
      · split at h
        · cases h
        · rename_i ds0 hds0
          simp only [Except.ok.injEq] at h
          subst h
          rcases List.mem_cons.mp hpr with rfl | hpr2
          · exact hq0
          · exact ih hds0 pr hpr2

/-- A configuration with `--zero-size-segments` and a range filter that
the zero-size segment below does not fall into. -/
def cfgRangeZ : Config :=
  { noSht := false, hasRange := true, minLma := 0x1000, maxLma := 0x1fff,
    allowZeroSizeSeg := true }

/-- A zero-`p_filesz` loadable segment at LMA `0x5000`, outside
`cfgRangeZ`'s range. -/
def segZeroOut : GElf_Phdr :=
  { p_type := 1, p_flags := 0, p_offset := 0, p_vaddr := 0x5000,
    p_paddr := 0x5000, p_filesz := 0, p_memsz := 0x10, p_align := 1 }

/-- Claim C6 counterexample: a zero-size `PT_LOAD` segment under
`--zero-size-segments` is still absent from the output program-header
table when an active range filter excludes it, contradicting the claim
that with `admitZeroSize` true its descriptor is present. -/
theorem c6_counterexample :
    segZeroOut.p_type = PT_LOAD ∧ segZeroOut.p_filesz = 0 ∧
    cfgRangeZ.allowZeroSizeSeg = true ∧
    segZeroOut ∉ outputPhdrs cfgRangeZ [segLow, segZeroOut] := by
  refine ⟨rfl, rfl, rfl, by decide⟩

/-- Claim C6 as amended: a zero-size `PT_LOAD` segment is absent from the
output entirely when `--zero-size-segments` is off; with the flag on it
is present in the output program-header table provided it passes any
active range filter, and no payload bytes are associated for it. -/
theorem c6_zero_size_amended (cfg : Config) (inp : InputElf)
    (ph : GElf_Phdr) (hmem : ph ∈ inp.phdrs) (hty : ph.p_type = PT_LOAD)
    (hz : ph.p_filesz = 0) :
    (cfg.allowZeroSizeSeg = false → ph ∉ outputPhdrs cfg inp.phdrs) ∧
    (cfg.allowZeroSizeSeg = true →
      (cfg.hasRange = false ∨
        (cfg.minLma ≤ ph.p_paddr ∧ segmentEnd ph ≤ cfg.maxLma)) →
      ph ∈ outputPhdrs cfg inp.phdrs ∧
      ∀ ds,
        associateData inp.fileSize (outputPhdrs cfg inp.phdrs) =
          Except.ok ds →
        ph ∉ ds.map Prod.fst) := by
  constructor
  · intro hoff hin
    have hacc :=
      (mem_selectSegments.mp (mem_sortPhdrs.mp hin)).2
    rcases ((acceptSegment_iff cfg ph).mp hacc).2.1 with hne | hon
    · exact hne hz
    · rw [hoff] at hon
      cases hon
  · intro hon hrange
    constructor
    · apply mem_sortPhdrs.mpr
      apply mem_selectSegments.mpr
      refine ⟨hmem, (acceptSegment_iff cfg ph).mpr ⟨hty, Or.inr hon, hrange⟩⟩
    · intro ds hds hinmap
      rcases List.mem_map.mp hinmap with ⟨pr, hpr, hfst⟩
      exact associateData_filesz_ne hds pr hpr (hfst ▸ hz)

/-- Configuration with only `--zero-size-segments`. -/
def cfgZ : Config :=
  { noSht := false, hasRange := false, minLma := 0, maxLma := 0,
    allowZeroSizeSeg := true }

/-- A zero-size loadable segment at LMA `0x3000`. -/
def segZero : GElf_Phdr :=
  { p_type := 1, p_flags := 0, p_offset := 0, p_vaddr := 0x3000,
    p_paddr := 0x3000, p_filesz := 0, p_memsz := 0x10, p_align := 1 }

/-- Input holding one payload-bearing and one zero-size segment. -/
def inpZ : InputElf := { phdrs := [segLow, segZero], fileSize := 0x1000 }

theorem c6_zero_size_amended_witness :
    (cfgZ.allowZeroSizeSeg = false →
      segZero ∉ outputPhdrs cfgZ inpZ.phdrs) ∧
    (cfgZ.allowZeroSizeSeg = true →
      (cfgZ.hasRange = false ∨
        (cfgZ.minLma ≤ segZero.p_paddr ∧
          segmentEnd segZero ≤ cfgZ.maxLma)) →
      segZero ∈ outputPhdrs cfgZ inpZ.phdrs ∧
      ∀ ds,
        associateData inpZ.fileSize (outputPhdrs cfgZ inpZ.phdrs) =
          Except.ok ds →
        segZero ∉ ds.map Prod.fst) :=
  c6_zero_size_amended cfgZ inpZ segZero (by decide) rfl rfl

/-- If some segment of the list has a nonzero `p_filesz` that the input
file cannot fully provide, the payload loop aborts with the short-read
error (`src/squashelf.c` lines 363-371). -/
theorem associateData_short {fs : Nat} :
    ∀ {l : List GElf_Phdr},
      (∃ ph ∈ l, ph.p_filesz ≠ 0 ∧
        preadLen fs ph.p_offset ph.p_filesz ≠ ph.p_filesz) →
      associateData fs l = Except.error SqError.shortRead := by
  intro l
  induction l with
  | nil =>
    rintro ⟨ph, hm, _⟩
    cases hm
  | cons q rest ih =>
    rintro ⟨ph, hm, hnz, hsh⟩
    unfold associateData
    split
    · rename_i hq0
      apply ih
      refine ⟨ph, ?_, hnz, hsh⟩
      rcases List.mem_cons.mp hm with rfl | hm2
      · exact absurd hq0 hnz
      · exact hm2
    · split
      · rfl
      · rename_i hq0 hqfull
        have hrest : ph ∈ rest := by
          rcases List.mem_cons.mp hm with rfl | hm2
          · exact absurd hsh hqfull
          · exact hm2
        rw [ih ⟨ph, hrest, hnz, hsh⟩]

/-- A one-segment input file too small to provide the segment's payload:
`segLow` wants `0x100` bytes at offset `0x400` but the file holds only
`0x80` bytes, so `pread` returns fewer bytes than requested. -/
def inpShort : InputElf := { phdrs := [segLow], fileSize := 0x80 }

/-- Claim C7 counterexample: a payload read that returns fewer bytes
than `p_filesz` is fatal — the run aborts with the short-read error
instead of continuing with a downgraded length. -/
theorem c7_counterexample :
    preadLen inpShort.fileSize segLow.p_offset segLow.p_filesz <
      segLow.p_filesz ∧
    (runSquashelf cfgPlain inpShort).1 = Except.error SqError.shortRead :=
  ⟨by decide, rfl⟩

/-- Claim C7 as amended: a payload read that returns fewer bytes than
`p_filesz` is fatal to the transfer — after the warning the code aborts
the whole run (`src/squashelf.c` lines 363-371), so no downgraded
length is ever used and no final commit happens — yet the process then
exits with status 0, because the `cleanup_error` status computation at
line 443 sees `errno` and `elf_errno()` both 0 on this path. -/
theorem c7_short_read_fatal (cfg : Config) (inp : InputElf)
    (h : ∃ ph ∈ selectSegments cfg inp.phdrs, ph.p_filesz ≠ 0 ∧
      preadLen inp.fileSize ph.p_offset ph.p_filesz ≠ ph.p_filesz) :
    (runSquashelf cfg inp).1 = Except.error SqError.shortRead ∧
    Effect.writeFinal ∉ (runSquashelf cfg inp).2 ∧
    exitStatus (runSquashelf cfg inp).1 = 0 := by
  obtain ⟨ph, hm, hnz, hsh⟩ := h
  have hne : ¬ (selectSegments cfg inp.phdrs).length = 0 := by
    intro h0
    rw [List.length_eq_zero] at h0
    rw [h0] at hm
    cases hm
  have hassoc :
      associateData inp.fileSize
        (sortPhdrs (selectSegments cfg inp.phdrs)) =
        Except.error SqError.shortRead :=
    associateData_short ⟨ph, mem_sortPhdrs.mpr hm, hnz, hsh⟩
  have hrun : runSquashelf cfg inp =
      (Except.error SqError.shortRead,
        [Effect.openInput, Effect.openOutput, Effect.writeHeaderPht]) := by
    unfold runSquashelf
    rw [if_neg hne, hassoc]
  rw [hrun]
  refine ⟨rfl, by simp, rfl⟩

theorem c7_short_read_fatal_witness :
    (runSquashelf cfgPlain inpShort).1 = Except.error SqError.shortRead ∧
    Effect.writeFinal ∉ (runSquashelf cfgPlain inpShort).2 ∧
    exitStatus (runSquashelf cfgPlain inpShort).1 = 0 :=
  c7_short_read_fatal cfgPlain inpShort
    ⟨segLow, by decide, by decide, by decide⟩

/-- Section count of a successful outcome. -/
def outSectionCountOf : Except SqError OutputElf → Option Nat
  | Except.ok o => some o.sections.length
  | Except.error _ => none

/-- Recorded section-header-count field of a successful outcome. -/
def outShnumOf : Except SqError OutputElf → Option Nat
  | Except.ok o => some o.shnum
  | Except.error _ => none

/-- Claim C8 counterexample: in the default (no `--nosht`) mode the
output does not contain exactly one section-header entry: for a
one-payload input the container ends with two core-created sections (the
payload data section and the appended null section), and the finalized
section count is 2, not 1. -/
theorem c8_counterexample :
    outSectionCountOf (runSquashelf cfgPlain inpOne).1 = some 2 ∧
    outShnumOf (runSquashelf cfgPlain inpOne).1 ≠ some 1 := by
  refine ⟨rfl, by decide⟩

/-- Claim C8 as amended: on a successful run, with `--nosht` the core
clears the header's section count, section-table offset and string-table
index and appends no null section (only the per-payload data sections
exist); without `--nosht` exactly one empty/null section is appended
after the per-payload data sections, and the finalized section count is
the number of container sections (payload sections plus one), not 1 in
general. -/
theorem c8_sht_policy (cfg : Config) (inp : InputElf) (out : OutputElf)
    (tr : List Effect) (h : runSquashelf cfg inp = (Except.ok out, tr)) :
    (cfg.noSht = true →
      out.shnum = 0 ∧ out.shoff = 0 ∧ out.shstrndx = SHN_UNDEF ∧
      ∀ s ∈ out.sections, s.isNull = false) ∧
    (cfg.noSht = false →
      out.shnum = out.sections.length ∧
      out.sections.getLast? = some nullScn ∧
      ∀ s ∈ out.sections.dropLast, s.isNull = false) := by
  obtain ⟨ds, hds, rfl⟩ := runSquashelf_ok h
  constructor
  · intro hn
    simp only [buildOutput, hn, if_true, true_and]
    intro s hs
    rcases List.mem_map.mp hs with ⟨pr, _, rfl⟩
    rfl
  · intro hn
    simp only [buildOutput, hn, Bool.false_eq_true, if_false, true_and]
    refine ⟨List.getLast?_concat _, ?_⟩
    intro s hs
    rw [List.dropLast_concat] at hs
    rcases List.mem_map.mp hs with ⟨pr, _, rfl⟩
    rfl

set_option maxRecDepth 100000 in
theorem c8_sht_policy_witness :
    (cfgPlain.noSht = true →
      outOne.shnum = 0 ∧ outOne.shoff = 0 ∧ outOne.shstrndx = SHN_UNDEF ∧
      ∀ s ∈ outOne.sections, s.isNull = false) ∧
    (cfgPlain.noSht = false →
      outOne.shnum = outOne.sections.length ∧
      outOne.sections.getLast? = some nullScn ∧
      ∀ s ∈ outOne.sections.dropLast, s.isNull = false) :=
  c8_sht_policy cfgPlain inpOne outOne trFull rfl

/-- Claim C9: a range argument with no dash, or whose parsed bounds
satisfy `min >= max`, makes the run fail with the usage error and an
empty effect trace — no input or output file is ever opened. -/
theorem c9_bad_range_fails_early (s : List Char) (n z : Bool)
    (inp : InputElf)
    (h : splitAtDash s = none ∨
      ∃ a b, splitAtDash s = some (a, b) ∧ parseBound a ≥ parseBound b) :
    runWithRangeArg (some s) n z inp =
      (Except.error SqError.usageError, []) := by
  have hpr : parseRangeArg s = Except.error () := by
    unfold parseRangeArg
    rcases h with h | ⟨a, b, hs, hge⟩
    · rw [h]
    · rw [hs]
      show (if parseBound a ≥ parseBound b then Except.error ()
        else Except.ok (parseBound a, parseBound b)) = Except.error ()
      rw [if_pos hge]
  show (match parseRangeArg s with
    | Except.error _ => (Except.error SqError.usageError, ([] : List Effect))
    | Except.ok mm =>
      runSquashelf
        { noSht := n, hasRange := true, minLma := mm.1, maxLma := mm.2,
          allowZeroSizeSeg := z } inp) =
    (Except.error SqError.usageError, [])
  rw [hpr]

theorem c9_bad_range_fails_early_witness :
    runWithRangeArg (some ("0x200-0x100".toList)) false false inpOne =
      (Except.error SqError.usageError, []) :=
  c9_bad_range_fails_early ("0x200-0x100".toList) false false inpOne
    (Or.inr ⟨"0x200".toList, "0x100".toList, by decide, by decide⟩)

/-- The widest expressible range filter: `--range 0-0xFFFFFFFFFFFFFFFF`
(its bounds satisfy the `min < max` check), with `--zero-size-segments`
also given. -/
def cfgFullRange : Config :=
  { noSht := false, hasRange := true, minLma := 0, maxLma := 2 ^ 64 - 1,
    allowZeroSizeSeg := true }

/-- A loadable segment with `p_paddr = 0` and `p_memsz = 0`. -/
def segWrap : GElf_Phdr :=
  { p_type := 1, p_flags := 0, p_offset := 0, p_vaddr := 0,
    p_paddr := 0, p_filesz := 0, p_memsz := 0, p_align := 0 }

/-- Claim C10 counterexample: for a segment with `p_paddr = 0` and
`p_memsz = 0` the computed end does wrap to `2 ^ 64 - 1`, but the
segment is not rejected by every range filter: the valid filter
`0 .. 2 ^ 64 - 1` accepts it. -/
theorem c10_counterexample :
    segmentEnd segWrap = 2 ^ 64 - 1 ∧
    cfgFullRange.hasRange = true ∧
    cfgFullRange.minLma < cfgFullRange.maxLma ∧
    segWrap.p_paddr = 0 ∧ segWrap.p_memsz = 0 ∧
    acceptSegment cfgFullRange segWrap = true := by
  refine ⟨by decide, rfl, by decide, rfl, rfl, by decide⟩

/-- Numeric value of the `uint64_t` modulus. -/
theorem U64_val : U64 = 18446744073709551616 := by norm_num [U64]

/-- Claim C10 as amended: under an active range filter the segment end
is the wrapped `p_paddr + p_memsz - 1`; a loadable segment with
`p_paddr = 0` and `p_memsz = 0` gets end `2 ^ 64 - 1` and is rejected by
every range filter whose `max` bound is below `2 ^ 64 - 1`. -/
theorem c10_zero_memsz_wraps (cfg : Config) (ph : GElf_Phdr)
    (hr : cfg.hasRange = true) (hmax : cfg.maxLma < U64 - 1)
    (hp : ph.p_paddr = 0) (hm : ph.p_memsz = 0) :
    segmentEnd ph = U64 - 1 ∧ acceptSegment cfg ph = false := by
  have hend : segmentEnd ph = U64 - 1 := by
    unfold segmentEnd
    rw [hp, hm]
    have h1 : U64 - 1 < U64 := by rw [U64_val]; omega
    simp only [Nat.zero_add]
    exact Nat.mod_eq_of_lt h1
  refine ⟨hend, ?_⟩
  unfold acceptSegment
  split
  · rfl
  · split
    · rfl
    · split
      · rfl
      · rename_i h1 h2 h3
        exfalso
        push_neg at h3
        have h4 := (h3 hr).2
        rw [hend] at h4
        rw [U64_val] at h4 hmax
        omega

/-- A narrow range filter whose `max` is far below `2 ^ 64 - 1`. -/
def cfgSmallRange : Config :=
  { noSht := false, hasRange := true, minLma := 5, maxLma := 100,
    allowZeroSizeSeg := true }

theorem c10_zero_memsz_wraps_witness :
    segmentEnd segWrap = U64 - 1 ∧
    acceptSegment cfgSmallRange segWrap = false :=
  c10_zero_memsz_wraps cfgSmallRange segWrap rfl (by decide) rfl rfl

end Squashelf
